import Mathlib

/-!
Verification of the organization CRUD service: a shallow embedding of the
pagination helper (src/db/repositories/base.rs), the database-to-API error
translation chain (src/error/common/database.rs) and the pagination arithmetic
of the list handler (src/api/handlers/organization.rs), together with a
spec-modelled view of the repository operations whose concrete implementation
is not among the provided sources.
-/

/-- Wrap an unbounded integer into the range of a 64-bit signed integer,
the wrapping semantics of release-profile Rust arithmetic. -/
def wrap64 (x : Int) : Int := (x + 2 ^ 63) % 2 ^ 64 - 2 ^ 63

/-- Embeds struct PaginationParams (src/db/repositories/base.rs lines 9-13):
the requested 1-based page and page size, both i64 in the source. -/
structure PaginationParams where
  page : Int
  per_page : Int
deriving DecidableEq, Repr

/-- Embeds struct PaginationMeta (src/db/repositories/base.rs lines 38-46). -/
structure PaginationMeta where
  current_page : Int
  per_page : Int
  total_items : Int
  total_pages : Int
  has_next_page : Bool
  has_previous_page : Bool
deriving DecidableEq, Repr

/-- Embeds struct PaginatedResponse (src/db/repositories/base.rs lines 32-36). -/
structure PaginatedResponse (T : Type) where
  data : List T
  meta : PaginationMeta
deriving DecidableEq, Repr

/-- Round a rational to the nearest integer, ties to even: the rounding of
the scaled mantissa in every IEEE 754 double operation modelled below. -/
def rne (y : ℚ) : Int :=
  let n := ⌊y⌋
  let f := y - (n : ℚ)
  if f < 1/2 then n
  else if 1/2 < f then n + 1
  else if n % 2 = 0 then n else n + 1

/-- Round a positive rational to the nearest IEEE 754 double: scale by the
power of two that brings the value into the 53-bit mantissa range
[2^52, 2^53), round the mantissa to the nearest integer ties-to-even, and
scale back. Exponent overflow to infinity and subnormal underflow are not
modelled: every value reaching this function here is an integer cast of an
i64 value or a quotient of two such casts, far inside the normal range. -/
def roundf64_pos (q : ℚ) : ℚ :=
  (rne (q / (2:ℚ) ^ (Int.log 2 q - 52)) : ℚ) * (2:ℚ) ^ (Int.log 2 q - 52)

/-- Round a rational to the nearest IEEE 754 double, round-to-nearest
ties-to-even — the rounding mode of every Rust f64 arithmetic operation —
extended to all signs by symmetry. -/
def roundf64 (q : ℚ) : ℚ :=
  if q = 0 then 0 else if 0 < q then roundf64_pos q else -(roundf64_pos (-q))

/-- The conversion of an i64 value by the Rust cast total as f64: the
correctly rounded value of the integer. -/
def f64_of_int (n : Int) : ℚ := roundf64 ((n : ℚ))

/-- IEEE f64 division: the exact rational quotient of the operands,
correctly rounded. -/
def f64_div (x y : ℚ) : ℚ := roundf64 (x / y)

/-- The saturating Rust cast as i64 applied to an integral f64 value. -/
def sat64 (x : Int) : Int :=
  if x < -(2 ^ 63) then -(2 ^ 63) else if 2 ^ 63 - 1 < x then 2 ^ 63 - 1 else x

/-- Embeds the expression computing total_pages in PaginatedResponse::new
(src/db/repositories/base.rs line 50): total as f64 divided by per_page as
f64, then .ceil(), then as i64. Both i64-to-f64 casts and the division are
correctly rounded to double precision by roundf64; the f64 ceiling is exact —
the true ceiling of any double in reach is itself representable — so it is
the mathematical ceiling of the rounded quotient, and the final cast is the
saturating sat64. For per_page = 0 the f64 quotient is an infinity or NaN
and the saturating cast yields the i64 extremes or 0; that branch is spelled
out. -/
def float_ceil_div (total per_page : Int) : Int :=
  if per_page = 0 then
    if 0 < total then 2 ^ 63 - 1 else if total < 0 then -(2 ^ 63) else 0
  else sat64 ⌈f64_div (f64_of_int total) (f64_of_int per_page)⌉

/-- Embeds PaginatedResponse::new (src/db/repositories/base.rs lines 48-63). -/
def PaginatedResponse.new {T : Type} (data : List T) (total : Int)
    (pagination : PaginationParams) : PaginatedResponse T :=
  let total_pages := float_ceil_div total pagination.per_page
  { data := data
    meta :=
      { current_page := pagination.page
        per_page := pagination.per_page
        total_items := total
        total_pages := total_pages
        has_next_page := decide (pagination.page < total_pages)
        has_previous_page := decide (pagination.page > 1) } }

/-- Modelled from the spec: the ErrorCode enumeration is declared outside the
provided sources; its variants are the four referenced by
src/error/common/database.rs plus the Validation category of spec section 7. -/
inductive ErrorCode
  | NotFound
  | Conflict
  | DatabaseError
  | ConnectionPoolError
  | Validation
deriving DecidableEq, Repr

/-- The kind tag attached to diesel database errors (the dependency type
diesel::result::DatabaseErrorKind); the code under verification never
inspects it. -/
inductive DatabaseErrorKind
  | UniqueViolation
  | ForeignKeyViolation
  | NotNullViolation
  | Unknown
deriving DecidableEq, Repr

/-- The diesel error type (the dependency type diesel::result::Error)
restricted to the shape the translation in src/error/common/database.rs
observes: the five variants it matches by name, and one catch-all constructor
standing for every remaining variant, carrying the Display rendering of that
variant. A DatabaseError variant carries its kind and the text returned by
info.message(). -/
inductive DieselError
  | NotFound
  | DatabaseError (kind : DatabaseErrorKind) (message : String)
  | RollbackTransaction
  | AlreadyInTransaction
  | NotInTransaction
  | OtherVariant (rendering : String)
deriving DecidableEq, Repr

/-- Display rendering of a diesel error, used by the to_string calls in
src/error/common/database.rs lines 57, 59 and 62. The wordings for the named
variants come from the diesel dependency; no claim below depends on them. -/
def DieselError.toString : DieselError → String
  | .NotFound => "Record not found"
  | .DatabaseError _ message => message
  | .RollbackTransaction => "The transaction was aborted"
  | .AlreadyInTransaction => "Already in transaction"
  | .NotInTransaction => "Not in transaction"
  | .OtherVariant rendering => rendering

/-- Embeds enum DatabaseError (src/error/common/database.rs lines 6-14). -/
inductive DatabaseError
  | ConnectionFailed (msg : String)
  | QueryFailed (msg : String)
  | RecordNotFound (msg : String)
  | UniqueViolation (msg : String)
  | TransactionFailed (msg : String)
  | PoolError (msg : String)
deriving DecidableEq, Repr

/-- Embeds impl fmt::Display for DatabaseError
(src/error/common/database.rs lines 16-27). -/
def DatabaseError.toString : DatabaseError → String
  | .ConnectionFailed msg => "Database connection failed: " ++ msg
  | .QueryFailed msg => "Database query failed: " ++ msg
  | .RecordNotFound msg => "Record not found: " ++ msg
  | .UniqueViolation msg => "Unique constraint violation: " ++ msg
  | .TransactionFailed msg => "Transaction failed: " ++ msg
  | .PoolError msg => "Connection pool error: " ++ msg

/-- The Debug rendering of a DatabaseError, used for the error_type details
payload in src/error/common/database.rs lines 45-47: the variant name applied
to the quoted wrapped string, as derive(Debug) prints it. -/
def DatabaseError.debugRendering : DatabaseError → String
  | .ConnectionFailed msg => "ConnectionFailed(\"" ++ msg ++ "\")"
  | .QueryFailed msg => "QueryFailed(\"" ++ msg ++ "\")"
  | .RecordNotFound msg => "RecordNotFound(\"" ++ msg ++ "\")"
  | .UniqueViolation msg => "UniqueViolation(\"" ++ msg ++ "\")"
  | .TransactionFailed msg => "TransactionFailed(\"" ++ msg ++ "\")"
  | .PoolError msg => "PoolError(\"" ++ msg ++ "\")"

/-- Modelled from the spec: the ApiError type is declared outside the provided
sources (spec section 3: a code, a human message, optional structured context,
and the wrapped cause kept for diagnostics). The fields mirror the calls
ApiError::new(code, message, context).with_source(error) in
src/error/common/database.rs lines 42-48; details holds the rendered
error_type context payload and source the retained cause. -/
structure ApiError where
  code : ErrorCode
  message : String
  details : String
  source : Option DatabaseError
deriving DecidableEq, Repr

/-- Embeds impl From of DatabaseError for ApiError
(src/error/common/database.rs lines 29-50): the match pairs each variant with
an ErrorCode and the full Display rendering as message; the Debug rendering
goes into the context details and the original error is retained through
with_source. -/
def ApiError.fromDatabaseError (error : DatabaseError) : ApiError :=
  let pair : ErrorCode × String :=
    match error with
    | .ConnectionFailed _ | .PoolError _ => (.ConnectionPoolError, error.toString)
    | .QueryFailed _ | .TransactionFailed _ => (.DatabaseError, error.toString)
    | .RecordNotFound _ => (.NotFound, error.toString)
    | .UniqueViolation _ => (.Conflict, error.toString)
  { code := pair.1
    message := pair.2
    details := error.debugRendering
    source := some error }

/-- Embeds impl From of DieselError for DatabaseError
(src/error/common/database.rs lines 54-65). The arm for
DieselError::DatabaseError ignores the attached kind: every database error,
unique violations included, becomes QueryFailed carrying info.message(). -/
def DatabaseError.fromDiesel (error : DieselError) : DatabaseError :=
  match error with
  | .NotFound => .RecordNotFound error.toString
  | .DatabaseError _ info => .QueryFailed info
  | .RollbackTransaction => .TransactionFailed error.toString
  | .AlreadyInTransaction => .TransactionFailed "Already in transaction"
  | .NotInTransaction => .TransactionFailed "Not in transaction"
  | .OtherVariant _ => .QueryFailed error.toString

/-- The full translation chain applied to a repository outcome: a diesel error
is converted to a DatabaseError and then to an ApiError through the two From
impls of src/error/common/database.rs; a success carries no error code. -/
def errorCodeOf {α : Type} (result : Except DieselError α) : Option ErrorCode :=
  match result with
  | .ok _ => none
  | .error e => some (ApiError.fromDatabaseError (DatabaseError.fromDiesel e)).code

/-- Modelled from the spec: the Organization entity (spec section 3) with a
unique identifier, a name, and soft-delete state; the model struct itself is
outside the provided sources. The Uuid identifier is abstracted as Nat. -/
structure Organization where
  id : Nat
  name : String
  deleted : Bool
deriving DecidableEq, Repr

/-- Embeds struct ListOrganizationsQuery as used by the handler
(src/api/handlers/organization.rs lines 71-74): optional i64 limit and
offset query parameters. -/
structure ListOrganizationsQuery where
  limit : Option Int
  offset : Option Int
deriving DecidableEq, Repr

/-- Embeds the pagination computation of list_organizations
(src/api/handlers/organization.rs lines 73-82): limit defaults to 10, offset
to 0, and page is offset / limit + 1 with truncating i64 division. i64
division panics on a zero divisor and at i64 minimum divided by -1; those
paths are none. The successor is wrapped into the i64 range, the behaviour of
a release build; the single input where the wrap differs from exact addition
(a quotient of i64 maximum) panics instead in a debug build. -/
def list_organizations_pagination (query : ListOrganizationsQuery) :
    Option PaginationParams :=
  let limit := query.limit.getD 10
  let offset := query.offset.getD 0
  if limit = 0 ∨ (offset = -(2 ^ 63) ∧ limit = -1) then none
  else some { page := wrap64 (offset.tdiv limit + 1), per_page := limit }

/-- Embeds the success path of list_organizations
(src/api/handlers/organization.rs lines 69-93). The rows the service returns
for the computed pagination are a parameter (the database is outside the
model); the handler measures them — organizations.len() as i64 — and passes
that count as the total to PaginatedResponse::new. none is the panic in the
pagination computation. -/
def list_organizations (query : ListOrganizationsQuery)
    (organizations : List Organization) :
    Option (PaginatedResponse Organization) :=
  match list_organizations_pagination query with
  | none => none
  | some pagination =>
      some (PaginatedResponse.new organizations
        ((organizations.length : Int)) pagination)

/-- Modelled from the spec: the concrete repository implementation behind the
BaseRepository trait (src/db/repositories/base.rs lines 24-30) is not among
the provided sources. A database state is the list of stored rows; a row is
live when not soft-deleted (spec section 4.2 and glossary). find_by_id
returns the live row with the requested id and otherwise the diesel NotFound
error. -/
def OrganizationRepository.find_by_id (store : List Organization) (id : Nat) :
    Except DieselError Organization :=
  match store.find? (fun r => r.id == id && !r.deleted) with
  | some r => .ok r
  | none => .error .NotFound

/-- Modelled from the spec: update resolves the id to a live row, applies the
new field values keeping the id and soft-delete state, and fails with the
diesel NotFound error when the id does not resolve to a live row (spec
section 4.2). Returns the new store and the updated row. -/
def OrganizationRepository.update (store : List Organization) (id : Nat)
    (model : Organization) : Except DieselError (List Organization × Organization) :=
  match store.find? (fun r => r.id == id && !r.deleted) with
  | some r =>
      let updated : Organization := { r with name := model.name }
      .ok (store.map (fun s => if s.id == id && !s.deleted then updated else s),
        updated)
  | none => .error .NotFound

/-- Modelled from the spec: soft_delete marks the live row with the given id
inactive rather than removing it, and fails with the diesel NotFound error
when the id is absent or the row is already deleted (spec section 4.2 and
glossary). Returns the new store and the marked row. -/
def OrganizationRepository.soft_delete (store : List Organization) (id : Nat) :
    Except DieselError (List Organization × Organization) :=
  match store.find? (fun r => r.id == id && !r.deleted) with
  | some r =>
      let marked : Organization := { r with deleted := true }
      .ok (store.map (fun s => if s.id == id && !s.deleted then marked else s),
        marked)
  | none => .error .NotFound

/-- Modelled from the spec: create inserts a new organization and fails when
the name collides with an existing live organization (spec sections 4.2 and
8); the database reports the collision as a diesel DatabaseError carrying the
UniqueViolation kind and the constraint message. -/
def OrganizationRepository.create (store : List Organization)
    (model : Organization) : Except DieselError (List Organization × Organization) :=
  if store.any (fun r => r.name == model.name && !r.deleted) then
    .error (.DatabaseError .UniqueViolation
      "duplicate key value violates unique constraint organizations_name_key")
  else .ok (store ++ [model], model)

/-- Round-to-nearest of an integer is that integer. -/
theorem rne_intCast (n : Int) : rne ((n : ℚ)) = n := by
  simp [rne]

/-- Round-to-nearest moves a value up by at most one half. -/
theorem rne_le (y : ℚ) : (rne y : ℚ) ≤ y + 1/2 := by
  have h1 := Int.floor_le y
  have h2 := Int.lt_floor_add_one y
  simp only [rne]
  split_ifs with ha hb hc <;> push_cast <;> linarith

/-- Round-to-nearest moves a value down by at most one half. -/
theorem rne_ge (y : ℚ) : y - 1/2 ≤ (rne y : ℚ) := by
  have h1 := Int.floor_le y
  have h2 := Int.lt_floor_add_one y
  simp only [rne]
  split_ifs with ha hb hc <;> push_cast <;> linarith

/-- Round-to-nearest never exceeds the ceiling. -/
theorem rne_le_ceil (y : ℚ) : rne y ≤ ⌈y⌉ := by
  have h1 := Int.floor_le y
  have hfc := Int.floor_le_ceil y
  simp only [rne]
  split_ifs with ha hb hc
  · exact hfc
  · have : (⌊y⌋ : ℚ) < y := by linarith
    have := Int.lt_ceil.mpr this
    omega
  · exact hfc
  · have hf : (1:ℚ)/2 ≤ y - (⌊y⌋ : ℚ) := not_lt.mp ha
    have : (⌊y⌋ : ℚ) < y := by linarith
    have := Int.lt_ceil.mpr this
    omega

/-- Round-to-nearest is monotone. -/
theorem rne_mono {y1 y2 : ℚ} (h : y1 ≤ y2) : rne y1 ≤ rne y2 := by
  by_contra hc
  push_neg at hc
  have hc1 : rne y2 + 1 ≤ rne y1 := Int.add_one_le_iff.mpr hc
  have hc2 : ((rne y2 : ℚ)) + 1 ≤ (rne y1 : ℚ) := by exact_mod_cast hc1
  have h1 := rne_le y1
  have h2 := rne_ge y2
  have hy : y1 = y2 := le_antisymm h (by linarith)
  rw [hy] at hc
  exact absurd hc (lt_irrefl _)

theorem two_cast_q : ((2 : ℕ) : ℚ) = (2 : ℚ) := by norm_num

/-- A positive rational is at least the power of two named by its base-2
logarithm. -/
theorem q_lb (q : ℚ) (hq : 0 < q) : (2:ℚ) ^ (Int.log 2 q) ≤ q := by
  have := Int.zpow_log_le_self (b := 2) (by norm_num) hq
  rwa [two_cast_q] at this

/-- A rational is below the successor power of two of its base-2
logarithm. -/
theorem q_ub (q : ℚ) : q < (2:ℚ) ^ (Int.log 2 q + 1) := by
  have := Int.lt_zpow_succ_log_self (b := 2) (by norm_num) q
  rwa [two_cast_q] at this

theorem upow_pos (z : Int) : (0:ℚ) < (2:ℚ) ^ z := zpow_pos (by norm_num) z

/-- The scaled mantissa of a positive rational is at least 2^52. -/
theorem mant_lb (q : ℚ) (hq : 0 < q) :
    (2:ℚ) ^ (52:ℤ) ≤ q / (2:ℚ) ^ (Int.log 2 q - 52) := by
  have hu := upow_pos (Int.log 2 q - 52)
  rw [le_div_iff₀ hu, ← zpow_add₀ (by norm_num : (2:ℚ) ≠ 0)]
  have : (52 : ℤ) + (Int.log 2 q - 52) = Int.log 2 q := by omega
  rw [this]
  exact q_lb q hq

/-- The scaled mantissa of a rational is below 2^53. -/
theorem mant_ub (q : ℚ) :
    q / (2:ℚ) ^ (Int.log 2 q - 52) < (2:ℚ) ^ (53:ℤ) := by
  have hu := upow_pos (Int.log 2 q - 52)
  rw [div_lt_iff₀ hu, ← zpow_add₀ (by norm_num : (2:ℚ) ≠ 0)]
  have : (53 : ℤ) + (Int.log 2 q - 52) = Int.log 2 q + 1 := by omega
  rw [this]
  exact q_ub q

/-- Rounding a positive rational to a double keeps it at or above the floor
of its binade. -/
theorem roundf64_pos_lb (q : ℚ) (hq : 0 < q) :
    (2:ℚ) ^ (Int.log 2 q) ≤ roundf64_pos q := by
  have hu := upow_pos (Int.log 2 q - 52)
  have h1 := rne_ge (q / (2:ℚ) ^ (Int.log 2 q - 52))
  have h2 := mant_lb q hq
  have hr : ((4503599627370496 : ℚ)) - 1/2 ≤ (rne (q / (2:ℚ) ^ (Int.log 2 q - 52)) : ℚ) := by
    have he : ((2:ℚ) ^ (52:ℤ)) = ((4503599627370496 : ℚ)) := by norm_num
    rw [he] at h2
    linarith
  have hrz : ((2 ^ 52 : ℤ) : ℚ) ≤ (rne (q / (2:ℚ) ^ (Int.log 2 q - 52)) : ℚ) := by
    have hlt : ((4503599627370495 : ℤ) : ℚ) < (rne (q / (2:ℚ) ^ (Int.log 2 q - 52)) : ℚ) := by
      push_cast
      linarith
    have hlt2 : (4503599627370495 : ℤ) < rne (q / (2:ℚ) ^ (Int.log 2 q - 52)) := by
      exact_mod_cast hlt
    have : (2 ^ 52 : ℤ) ≤ rne (q / (2:ℚ) ^ (Int.log 2 q - 52)) := by omega
    exact_mod_cast this
  calc (2:ℚ) ^ (Int.log 2 q)
      = (2:ℚ) ^ (52:ℤ) * (2:ℚ) ^ (Int.log 2 q - 52) := by
        rw [← zpow_add₀ (by norm_num : (2:ℚ) ≠ 0)]
        congr 1
        omega
    _ ≤ (rne (q / (2:ℚ) ^ (Int.log 2 q - 52)) : ℚ) * (2:ℚ) ^ (Int.log 2 q - 52) := by
        apply mul_le_mul_of_nonneg_right _ (le_of_lt hu)
        calc ((2:ℚ) ^ (52:ℤ)) = ((2 ^ 52 : ℤ) : ℚ) := by push_cast; norm_num
          _ ≤ _ := hrz
    _ = roundf64_pos q := rfl

/-- Rounding a positive rational to a double keeps it at or below the top of
its binade. -/
theorem roundf64_pos_ub (q : ℚ) (hq : 0 < q) :
    roundf64_pos q ≤ (2:ℚ) ^ (Int.log 2 q + 1) := by
  have hu := upow_pos (Int.log 2 q - 52)
  have h1 : rne (q / (2:ℚ) ^ (Int.log 2 q - 52)) ≤ ⌈q / (2:ℚ) ^ (Int.log 2 q - 52)⌉ :=
    rne_le_ceil _
  have h2 : (⌈q / (2:ℚ) ^ (Int.log 2 q - 52)⌉ : ℤ) ≤ 2 ^ 53 := by
    rw [Int.ceil_le]
    rw [show ((2 ^ 53 : ℤ) : ℚ) = (2:ℚ) ^ (53:ℤ) by push_cast; norm_num]
    exact le_of_lt (mant_ub q)
  have h3 : rne (q / (2:ℚ) ^ (Int.log 2 q - 52)) ≤ (2 ^ 53 : ℤ) := le_trans h1 h2
  calc roundf64_pos q
      = (rne (q / (2:ℚ) ^ (Int.log 2 q - 52)) : ℚ) * (2:ℚ) ^ (Int.log 2 q - 52) := rfl
    _ ≤ ((2 ^ 53 : ℤ) : ℚ) * (2:ℚ) ^ (Int.log 2 q - 52) := by
        apply mul_le_mul_of_nonneg_right _ (le_of_lt hu)
        exact_mod_cast h3
    _ = (2:ℚ) ^ (Int.log 2 q + 1) := by
        rw [show ((2 ^ 53 : ℤ) : ℚ) = (2:ℚ) ^ (53:ℤ) by push_cast; norm_num,
          ← zpow_add₀ (by norm_num : (2:ℚ) ≠ 0)]
        congr 1
        omega

/-- Rounding error, lower side: at most half an ulp. -/
theorem roundf64_pos_ge (q : ℚ) (hq : 0 < q) :
    q - (2:ℚ) ^ (Int.log 2 q - 53) ≤ roundf64_pos q := by
  have hu := upow_pos (Int.log 2 q - 52)
  have h1 := rne_ge (q / (2:ℚ) ^ (Int.log 2 q - 52))
  have key : (q / (2:ℚ) ^ (Int.log 2 q - 52) - 1/2) * (2:ℚ) ^ (Int.log 2 q - 52)
      ≤ roundf64_pos q := by
    exact mul_le_mul_of_nonneg_right h1 (le_of_lt hu)
  have expand : (q / (2:ℚ) ^ (Int.log 2 q - 52) - 1/2) * (2:ℚ) ^ (Int.log 2 q - 52)
      = q - (2:ℚ) ^ (Int.log 2 q - 53) := by
    rw [sub_mul, div_mul_cancel₀ _ (ne_of_gt hu)]
    congr 1
    rw [show (Int.log 2 q - 53) = (Int.log 2 q - 52) + (-1) by omega,
      zpow_add₀ (by norm_num : (2:ℚ) ≠ 0)]
    norm_num
    ring
  linarith [expand ▸ key]

/-- A value already on the double grid of its binade rounds to itself. -/
theorem roundf64_pos_eq_self (q : ℚ) (hq : 0 < q)
    (h : ∃ m : ℤ, q = (m : ℚ) * (2:ℚ) ^ (Int.log 2 q - 52)) :
    roundf64_pos q = q := by
  obtain ⟨m, hm⟩ := h
  show (rne (q / (2:ℚ) ^ (Int.log 2 q - 52)) : ℚ) * (2:ℚ) ^ (Int.log 2 q - 52) = q
  set u : ℚ := (2:ℚ) ^ (Int.log 2 q - 52) with hu_def
  have hu : u ≠ 0 := ne_of_gt (upow_pos _)
  have hdiv : q / u = (m : ℚ) := by
    rw [hm, mul_div_cancel_right₀ _ hu]
  rw [hdiv, rne_intCast, ← hm]

/-- Integers up to 2^53 convert to f64 exactly. -/
theorem roundf64_intCast (n : Int) (h0 : 0 ≤ n) (h : n ≤ 2 ^ 53) :
    roundf64 ((n : ℚ)) = (n : ℚ) := by
  rcases eq_or_lt_of_le h0 with h0' | h0'
  · rw [← h0']
    simp [roundf64]
  · have hq : (0:ℚ) < (n:ℚ) := by exact_mod_cast h0'
    rw [roundf64, if_neg (ne_of_gt hq), if_pos hq]
    apply roundf64_pos_eq_self _ hq
    have he53 : Int.log 2 ((n:ℚ)) ≤ 53 := by
      have hlt : (n:ℚ) < (2:ℚ) ^ (54:ℤ) := by
        calc (n:ℚ) ≤ ((2 ^ 53 : ℤ) : ℚ) := by exact_mod_cast h
          _ < (2:ℚ) ^ (54:ℤ) := by push_cast; norm_num
      have := (Int.lt_zpow_iff_log_lt (b := 2) (by norm_num) hq).mp
        (by rwa [two_cast_q])
      omega
    rcases le_or_lt (Int.log 2 ((n:ℚ))) 52 with he52 | he52
    · refine ⟨n * 2 ^ (52 - Int.log 2 ((n:ℚ))).toNat, ?_⟩
      push_cast
      rw [mul_assoc, ← zpow_natCast (2:ℚ), Int.toNat_of_nonneg (by omega),
        ← zpow_add₀ (by norm_num : (2:ℚ) ≠ 0)]
      rw [show (52 - Int.log 2 ((n:ℚ)) + (Int.log 2 ((n:ℚ)) - 52)) = 0 by omega]
      norm_num
    · have he : Int.log 2 ((n:ℚ)) = 53 := by omega
      have hge : (2:ℚ) ^ (53:ℤ) ≤ (n:ℚ) := by
        have := q_lb ((n:ℚ)) hq
        rwa [he] at this
      have hn : n = 2 ^ 53 := by
        have h5 : ((2 ^ 53 : ℤ) : ℚ) ≤ (n:ℚ) := by
          rw [show ((2 ^ 53 : ℤ) : ℚ) = (2:ℚ) ^ (53:ℤ) by push_cast; norm_num]
          exact hge
        have := (by exact_mod_cast h5 : (2 ^ 53 : ℤ) ≤ n)
        omega
      refine ⟨2 ^ 52, ?_⟩
      rw [he, hn]
      push_cast
      norm_num

/-- Rounding preserves nonnegativity. -/
theorem roundf64_nonneg (q : ℚ) (hq : 0 ≤ q) : 0 ≤ roundf64 q := by
  rcases eq_or_lt_of_le hq with h | h
  · rw [← h]
    simp [roundf64]
  · rw [roundf64, if_neg (ne_of_gt h), if_pos h]
    have := roundf64_pos_lb q h
    have := upow_pos (Int.log 2 q)
    linarith

/-- Rounding preserves positivity. -/
theorem roundf64_pos_of_pos (q : ℚ) (hq : 0 < q) : 0 < roundf64 q := by
  rw [roundf64, if_neg (ne_of_gt hq), if_pos hq]
  have := roundf64_pos_lb q hq
  have := upow_pos (Int.log 2 q)
  linarith

/-- Rounding to a double is monotone on nonnegative values. -/
theorem roundf64_mono (q1 q2 : ℚ) (h0 : 0 ≤ q1) (h : q1 ≤ q2) :
    roundf64 q1 ≤ roundf64 q2 := by
  rcases eq_or_lt_of_le h0 with h1 | h1
  · rw [← h1]
    have hz : roundf64 0 = 0 := by simp [roundf64]
    rw [hz]
    exact roundf64_nonneg q2 (by linarith)
  · have h2 : 0 < q2 := lt_of_lt_of_le h1 h
    rw [roundf64, if_neg (ne_of_gt h1), if_pos h1,
      roundf64, if_neg (ne_of_gt h2), if_pos h2]
    have hle : Int.log 2 q1 ≤ Int.log 2 q2 := Int.log_mono_right h1 h
    rcases eq_or_lt_of_le hle with heq | hlt
    · show (rne (q1 / (2:ℚ) ^ (Int.log 2 q1 - 52)) : ℚ) * (2:ℚ) ^ (Int.log 2 q1 - 52)
        ≤ (rne (q2 / (2:ℚ) ^ (Int.log 2 q2 - 52)) : ℚ) * (2:ℚ) ^ (Int.log 2 q2 - 52)
      rw [← heq]
      have hu := upow_pos (Int.log 2 q1 - 52)
      have hmono : rne (q1 / (2:ℚ) ^ (Int.log 2 q1 - 52))
          ≤ rne (q2 / (2:ℚ) ^ (Int.log 2 q1 - 52)) :=
        rne_mono (by gcongr)
      exact mul_le_mul_of_nonneg_right (by exact_mod_cast hmono) (le_of_lt hu)
    · calc roundf64_pos q1 ≤ (2:ℚ) ^ (Int.log 2 q1 + 1) := roundf64_pos_ub q1 h1
        _ ≤ (2:ℚ) ^ (Int.log 2 q2) := by
            apply zpow_le_zpow_right₀ (by norm_num : (1:ℚ) ≤ 2)
            omega
        _ ≤ roundf64_pos q2 := roundf64_pos_lb q2 h2

/-- Rounding keeps values from the unit interval at or below one. -/
theorem roundf64_le_one (x : ℚ) (h0 : 0 ≤ x) (h1 : x ≤ 1) : roundf64 x ≤ 1 := by
  have hr1 : roundf64 (1:ℚ) = 1 := by
    have := roundf64_intCast 1 (by norm_num) (by norm_num)
    push_cast at this
    exact this
  calc roundf64 x ≤ roundf64 1 := roundf64_mono x 1 h0 h1
    _ = 1 := hr1

/-- The ceiling of the correctly rounded quotient of integers below 2^53
equals the exact ceiling: the quotient sits strictly more than half an ulp
above the previous integer, so rounding cannot cross it. -/
theorem ceil_roundf64_intCast_div (a b : Int) (ha0 : 0 ≤ a) (ha : a < 2 ^ 53)
    (hb0 : 0 < b) :
    ⌈roundf64 ((a : ℚ) / (b : ℚ))⌉ = ⌈(a : ℚ) / (b : ℚ)⌉ := by
  have hbq : (0:ℚ) < (b:ℚ) := by exact_mod_cast hb0
  rcases eq_or_lt_of_le ha0 with h0 | h0
  · rw [← h0]
    norm_num [roundf64]
  · have haq : (0:ℚ) < (a:ℚ) := by exact_mod_cast h0
    have hxpos : 0 < (a:ℚ) / (b:ℚ) := div_pos haq hbq
    rw [roundf64, if_neg (ne_of_gt hxpos), if_pos hxpos]
    set x : ℚ := (a:ℚ) / (b:ℚ) with hx_def
    set k : ℤ := ⌈x⌉ with hk_def
    have ha53 : (a:ℚ) < (2:ℚ) ^ (53:ℤ) := by
      rw [show ((2:ℚ) ^ (53:ℤ)) = ((9007199254740992 : ℚ)) by norm_num]
      exact_mod_cast ha
    have hxa : x ≤ (a:ℚ) := by
      rw [hx_def]
      exact div_le_self (le_of_lt haq) (by exact_mod_cast hb0)
    have he52 : Int.log 2 x ≤ 52 := by
      have := (Int.lt_zpow_iff_log_lt (b := 2) (by norm_num) hxpos).mp
        (by rw [two_cast_q]; exact lt_of_le_of_lt hxa ha53)
      omega
    have hu := upow_pos (Int.log 2 x - 52)
    have hexp : ((k * 2 ^ (52 - Int.log 2 x).toNat : ℤ) : ℚ)
        * (2:ℚ) ^ (Int.log 2 x - 52) = (k:ℚ) := by
      push_cast
      rw [mul_assoc, ← zpow_natCast (2:ℚ) ((52 - Int.log 2 x).toNat),
        Int.toNat_of_nonneg (by omega : (0:ℤ) ≤ 52 - Int.log 2 x),
        ← zpow_add₀ (by norm_num : (2:ℚ) ≠ 0),
        show (52 - Int.log 2 x + (Int.log 2 x - 52)) = 0 by omega]
      norm_num
    have hceil_le : ⌈x / (2:ℚ) ^ (Int.log 2 x - 52)⌉
        ≤ k * 2 ^ (52 - Int.log 2 x).toNat := by
      rw [Int.ceil_le, div_le_iff₀ hu, hexp]
      exact Int.le_ceil x
    have hup : roundf64_pos x ≤ (k:ℚ) := by
      calc roundf64_pos x
          = (rne (x / (2:ℚ) ^ (Int.log 2 x - 52)) : ℚ) * (2:ℚ) ^ (Int.log 2 x - 52) := rfl
        _ ≤ ((k * 2 ^ (52 - Int.log 2 x).toNat : ℤ) : ℚ) * (2:ℚ) ^ (Int.log 2 x - 52) := by
            apply mul_le_mul_of_nonneg_right _ (le_of_lt hu)
            exact_mod_cast le_trans (rne_le_ceil _) hceil_le
        _ = (k:ℚ) := hexp
    have hstep : (k:ℚ) - 1 + 1/(b:ℚ) ≤ x := by
      have hgt : ((k:ℚ) - 1) < x := by
        have := Int.ceil_lt_add_one x
        linarith
      have h1 : ((k - 1) * b : ℤ) < a := by
        have h2 : ((k:ℚ) - 1) * (b:ℚ) < (a:ℚ) := by
          calc ((k:ℚ) - 1) * (b:ℚ) < x * (b:ℚ) := mul_lt_mul_of_pos_right hgt hbq
            _ = (a:ℚ) := by rw [hx_def]; exact div_mul_cancel₀ _ (ne_of_gt hbq)
        exact_mod_cast h2
      have h3 : ((k - 1) * b : ℤ) + 1 ≤ a := by omega
      have h4 : (((k - 1) * b + 1 : ℤ) : ℚ) ≤ (a:ℚ) := by exact_mod_cast h3
      have h5 : (((k - 1) * b + 1 : ℤ) : ℚ) / (b:ℚ) ≤ (a:ℚ) / (b:ℚ) := by gcongr
      calc (k:ℚ) - 1 + 1/(b:ℚ) = (((k - 1) * b + 1 : ℤ) : ℚ) / (b:ℚ) := by
            push_cast
            field_simp
            try ring
        _ ≤ x := by rw [hx_def]; exact h5
    have hulp : (2:ℚ) ^ (Int.log 2 x - 53) < 1/(b:ℚ) := by
      have hbx : (b:ℚ) * x = (a:ℚ) := by rw [hx_def]; field_simp
      have h3 : (b:ℚ) * (2:ℚ) ^ (Int.log 2 x) ≤ (a:ℚ) := by
        calc (b:ℚ) * (2:ℚ) ^ (Int.log 2 x)
            ≤ (b:ℚ) * x := mul_le_mul_of_nonneg_left (q_lb x hxpos) (le_of_lt hbq)
          _ = (a:ℚ) := hbx
      have h4 : (b:ℚ) * (2:ℚ) ^ (Int.log 2 x) < (2:ℚ) ^ (53:ℤ) := lt_of_le_of_lt h3 ha53
      rw [lt_div_iff₀ hbq]
      have hsplit : (2:ℚ) ^ (Int.log 2 x - 53) * (b:ℚ)
          = (b:ℚ) * (2:ℚ) ^ (Int.log 2 x) * (2:ℚ) ^ (-(53:ℤ)) := by
        rw [show (Int.log 2 x - 53) = Int.log 2 x + (-53) by omega,
          zpow_add₀ (by norm_num : (2:ℚ) ≠ 0)]
        ring
      rw [hsplit, zpow_neg, ← div_eq_mul_inv, div_lt_one (upow_pos 53)]
      exact h4
    have hlow : (k:ℚ) - 1 < roundf64_pos x := by
      have hge := roundf64_pos_ge x hxpos
      linarith
    rw [Int.ceil_eq_iff]
    exact ⟨hlow, hup⟩

/-- The integer 2^53 + 1 is the first integer a double cannot hold: it lies
exactly between two doubles and ties-to-even rounds it down to 2^53. -/
theorem roundf64_two_pow_53_add_one :
    roundf64 ((9007199254740993 : ℚ)) = 9007199254740992 := by
  have hqpos : (0:ℚ) < 9007199254740993 := by norm_num
  have hlog : Int.log 2 ((9007199254740993 : ℚ)) = 53 := by
    have h1 : (53:ℤ) ≤ Int.log 2 ((9007199254740993 : ℚ)) := by
      refine (Int.zpow_le_iff_le_log (b := 2) (by norm_num) hqpos).mp ?_
      rw [two_cast_q]
      norm_num
    have h2 : Int.log 2 ((9007199254740993 : ℚ)) < 54 := by
      refine (Int.lt_zpow_iff_log_lt (b := 2) (by norm_num) hqpos).mp ?_
      rw [two_cast_q]
      norm_num
    omega
  rw [roundf64, if_neg (by norm_num), if_pos hqpos]
  show (rne ((9007199254740993 : ℚ) / (2:ℚ) ^ (Int.log 2 ((9007199254740993 : ℚ)) - 52)) : ℚ)
      * (2:ℚ) ^ (Int.log 2 ((9007199254740993 : ℚ)) - 52) = 9007199254740992
  rw [hlog, show ((53:ℤ) - 52) = 1 by omega]
  have hdiv : (9007199254740993 : ℚ) / (2:ℚ) ^ (1:ℤ) = 9007199254740993 / 2 := by
    norm_num
  rw [hdiv]
  have hfloor : ⌊(9007199254740993 : ℚ) / 2⌋ = 4503599627370496 := by
    rw [Int.floor_eq_iff]
    constructor <;> norm_num
  have hrne : rne ((9007199254740993 : ℚ) / 2) = 4503599627370496 := by
    simp only [rne, hfloor]
    norm_num
  rw [hrne]
  norm_num

/-- The saturating cast is the identity inside the i64 range. -/
theorem sat64_eq_self (x : Int) (h1 : -(2 ^ 63) ≤ x) (h2 : x ≤ 2 ^ 63 - 1) :
    sat64 x = x := by
  simp only [sat64]
  rw [if_neg (not_lt.mpr h1), if_neg (not_lt.mpr h2)]

/-- For a positive divisor the exact rational ceiling coincides with ceiling
division expressed on integers. -/
theorem ceil_intCast_div_eq_ediv (a b : Int) (hb : 0 < b) :
    ⌈(a:ℚ) / (b:ℚ)⌉ = (a + b - 1) / b := by
  have hb0 : b ≠ 0 := ne_of_gt hb
  have hd := Int.ediv_add_emod (a + b - 1) b
  have hr0 : 0 ≤ (a + b - 1) % b := Int.emod_nonneg _ hb0
  have hrb : (a + b - 1) % b < b := Int.emod_lt_of_pos _ hb
  rw [Int.ceil_eq_iff]
  have hb' : (0 : ℚ) < (b : ℚ) := by exact_mod_cast hb
  constructor
  · rw [lt_div_iff₀ hb']
    have h : ((a + b - 1) / b - 1) * b < a := by nlinarith
    calc ((((a + b - 1) / b : Int) : ℚ) - 1) * b
        = (((a + b - 1) / b - 1 : Int) : ℚ) * b := by push_cast; ring
      _ < a := by exact_mod_cast h
  · rw [div_le_iff₀ hb']
    have h : a ≤ ((a + b - 1) / b) * b := by nlinarith
    exact_mod_cast h

/-- Below 2^53 the whole f64 pipeline computes the exact ceiling of the
quotient and the saturating cast is the identity. -/
theorem float_ceil_div_eq_ceil (a b : Int) (ha0 : 0 ≤ a) (ha : a < 2 ^ 53)
    (hb0 : 0 < b) (hb : b < 2 ^ 53) :
    float_ceil_div a b = ⌈(a:ℚ) / (b:ℚ)⌉ := by
  have hbne : b ≠ 0 := ne_of_gt hb0
  simp only [float_ceil_div, if_neg hbne, f64_div, f64_of_int]
  rw [roundf64_intCast a ha0 (by omega), roundf64_intCast b (le_of_lt hb0) (by omega)]
  rw [ceil_roundf64_intCast_div a b ha0 ha hb0]
  apply sat64_eq_self
  · have h0 : (0:ℤ) ≤ ⌈(a:ℚ)/(b:ℚ)⌉ :=
      Int.ceil_nonneg (div_nonneg (by exact_mod_cast ha0) (by exact_mod_cast le_of_lt hb0))
    have : (-(2 ^ 63) : ℤ) ≤ 0 := by norm_num
    omega
  · have h1 : ⌈(a:ℚ)/(b:ℚ)⌉ ≤ a := by
      have hd : (a:ℚ)/(b:ℚ) ≤ (a:ℚ) :=
        div_le_self (by exact_mod_cast ha0) (by exact_mod_cast hb0)
      calc ⌈(a:ℚ)/(b:ℚ)⌉ ≤ ⌈(a:ℚ)⌉ := Int.ceil_le_ceil hd
        _ = a := Int.ceil_intCast a
    have : (2:ℤ) ^ 53 ≤ 2 ^ 63 - 1 := by norm_num
    omega

/-- A zero total flows through the pipeline to zero pages. -/
theorem float_ceil_div_zero_left (b : Int) (hb : b ≠ 0) : float_ceil_div 0 b = 0 := by
  simp only [float_ceil_div, if_neg hb, f64_div, f64_of_int]
  have h1 : roundf64 (((0:ℤ)):ℚ) = 0 := by norm_num [roundf64]
  rw [h1, zero_div]
  have h2 : roundf64 (0:ℚ) = 0 := by norm_num [roundf64]
  rw [h2, Int.ceil_zero]
  exact sat64_eq_self 0 (by decide) (by decide)

/-- When the total is at most the page size the pipeline yields at most one
page — the casts and the division are monotone, so the rounded quotient stays
in the unit interval — and never a negative count. -/
theorem float_ceil_div_le_one (a b : Int) (ha0 : 0 ≤ a) (hb0 : 0 < b) (hab : a ≤ b) :
    float_ceil_div a b ≤ 1 ∧ 0 ≤ float_ceil_div a b := by
  have hbne : b ≠ 0 := ne_of_gt hb0
  simp only [float_ceil_div, if_neg hbne, f64_div, f64_of_int]
  have haq : (0:ℚ) ≤ ((a:ℤ):ℚ) := by exact_mod_cast ha0
  have hbq : (0:ℚ) < ((b:ℤ):ℚ) := by exact_mod_cast hb0
  have habq : ((a:ℤ):ℚ) ≤ ((b:ℤ):ℚ) := by exact_mod_cast hab
  have hA : 0 ≤ roundf64 ((a:ℚ)) := roundf64_nonneg _ haq
  have hB : 0 < roundf64 ((b:ℚ)) := roundf64_pos_of_pos _ hbq
  have hAB : roundf64 ((a:ℚ)) ≤ roundf64 ((b:ℚ)) := roundf64_mono _ _ haq habq
  have hx0 : 0 ≤ roundf64 ((a:ℚ)) / roundf64 ((b:ℚ)) := div_nonneg hA (le_of_lt hB)
  have hx1 : roundf64 ((a:ℚ)) / roundf64 ((b:ℚ)) ≤ 1 := (div_le_one hB).mpr hAB
  have hr0 : 0 ≤ roundf64 (roundf64 ((a:ℚ)) / roundf64 ((b:ℚ))) := roundf64_nonneg _ hx0
  have hr1 : roundf64 (roundf64 ((a:ℚ)) / roundf64 ((b:ℚ))) ≤ 1 := roundf64_le_one _ hx0 hx1
  have hc0 : (0:ℤ) ≤ ⌈roundf64 (roundf64 ((a:ℚ)) / roundf64 ((b:ℚ)))⌉ := Int.ceil_nonneg hr0
  have hc1 : ⌈roundf64 (roundf64 ((a:ℚ)) / roundf64 ((b:ℚ)))⌉ ≤ 1 := by
    rw [Int.ceil_le]
    exact_mod_cast hr1
  rw [sat64_eq_self _ (by omega) (by nlinarith [hc1])]
  exact ⟨hc1, hc0⟩

/-- Evaluating the pipeline at total 2^53 + 1 and per_page 1: the cast to f64
already loses the value, and the result is 2^53 instead of the exact ceiling
2^53 + 1. -/
theorem float_ceil_div_big : float_ceil_div (2 ^ 53 + 1) 1 = 2 ^ 53 := by
  have h1 : f64_of_int (2 ^ 53 + 1) = ((9007199254740992 : ℚ)) := by
    show roundf64 (((2 ^ 53 + 1 : ℤ)):ℚ) = _
    rw [show (((2 ^ 53 + 1 : ℤ)):ℚ) = ((9007199254740993 : ℚ)) by push_cast; norm_num]
    exact roundf64_two_pow_53_add_one
  have h2 : f64_of_int 1 = 1 := by
    show roundf64 (((1 : ℤ)):ℚ) = _
    have h := roundf64_intCast 1 (by norm_num) (by norm_num)
    push_cast at h
    push_cast
    exact h
  simp only [float_ceil_div, if_neg (by norm_num : (1:ℤ) ≠ 0), f64_div]
  rw [h1, h2, div_one]
  have h3 : roundf64 ((9007199254740992 : ℚ)) = 9007199254740992 := by
    have h := roundf64_intCast 9007199254740992 (by norm_num) (by norm_num)
    push_cast at h
    exact h
  rw [h3]
  have h4 : ⌈(9007199254740992 : ℚ)⌉ = 9007199254740992 := by
    rw [show (9007199254740992:ℚ) = ((9007199254740992:ℤ):ℚ) by norm_num, Int.ceil_intCast]
  rw [h4]
  rw [sat64_eq_self _ (by norm_num) (by norm_num)]
  norm_num

/-- wrap64 is the identity on the i64 range. -/
theorem wrap64_eq_self (x : Int) (hlow : -(2 ^ 63) ≤ x) (hhigh : x < 2 ^ 63) :
    wrap64 x = x := by
  have e63 : (2 : Int) ^ 63 = 9223372036854775808 := by norm_num
  have e64 : (2 : Int) ^ 64 = 18446744073709551616 := by norm_num
  simp only [wrap64]
  rw [e63] at hlow hhigh ⊢
  rw [e64]
  rw [Int.emod_eq_of_lt (by omega) (by omega)]
  omega

/-- C1 counterexample: at total = 2^53 + 1 and per_page = 1 — valid i64
inputs in the domain of the claim — the f64 cast rounds the total down to
2^53 before any division, so total_pages is 2^53 while the exact ceiling of
total over per_page is 2^53 + 1: the unbounded claim is false of the code. -/
theorem C1_counterexample :
    (PaginatedResponse.new ([] : List Unit) (2 ^ 53 + 1) ⟨1, 1⟩).meta.total_pages
      = 2 ^ 53 ∧
    ⌈(((2 ^ 53 + 1 : Int)) : ℚ) / (((1 : Int)) : ℚ)⌉ = 2 ^ 53 + 1 ∧
    (PaginatedResponse.new ([] : List Unit) (2 ^ 53 + 1) ⟨1, 1⟩).meta.total_pages
      ≠ ⌈(((2 ^ 53 + 1 : Int)) : ℚ) / (((1 : Int)) : ℚ)⌉ := by
  have ha : (PaginatedResponse.new ([] : List Unit) (2 ^ 53 + 1) ⟨1, 1⟩).meta.total_pages
      = float_ceil_div (2 ^ 53 + 1) 1 := rfl
  have hceil : ⌈(((2 ^ 53 + 1 : Int)) : ℚ) / (((1 : Int)) : ℚ)⌉ = 2 ^ 53 + 1 := by
    rw [show (((1:Int)):ℚ) = 1 by norm_num, div_one, Int.ceil_intCast]
  refine ⟨?_, hceil, ?_⟩
  · rw [ha]
    exact float_ceil_div_big
  · rw [ha, float_ceil_div_big, hceil]
    norm_num

/-- C1 amended: for 0 ≤ total < 2^53, 0 < per_page < 2^53 and page ≥ 1 — the
range in which an f64 holds these integers exactly, covering every reachable
row count and page size — PaginatedResponse::new computes total_pages as the
ceiling of total divided by per_page, equally the integer ceiling division
(total + per_page - 1) / per_page, and sets has_next_page exactly when
page < total_pages and has_previous_page exactly when page > 1; beyond 2^53
the f64 rounding can drop total_pages below the exact ceiling. -/
theorem C1_pagination_meta {T : Type} (data : List T) (total page per_page : Int)
    (htotal : 0 ≤ total) (htotal53 : total < 2 ^ 53)
    (hper : 0 < per_page) (hper53 : per_page < 2 ^ 53) (hpage : 1 ≤ page) :
    (PaginatedResponse.new data total ⟨page, per_page⟩).meta.total_pages
        = ⌈(total : ℚ) / (per_page : ℚ)⌉ ∧
    (PaginatedResponse.new data total ⟨page, per_page⟩).meta.total_pages
        = (total + per_page - 1) / per_page ∧
    ((PaginatedResponse.new data total ⟨page, per_page⟩).meta.has_next_page = true
        ↔ page < (PaginatedResponse.new data total ⟨page, per_page⟩).meta.total_pages) ∧
    ((PaginatedResponse.new data total ⟨page, per_page⟩).meta.has_previous_page = true
        ↔ page > 1) := by
  have hceil := float_ceil_div_eq_ceil total per_page htotal htotal53 hper hper53
  refine ⟨?_, ?_, ?_, ?_⟩
  · simpa only [PaginatedResponse.new] using hceil
  · simp only [PaginatedResponse.new]
    rw [hceil, ceil_intCast_div_eq_ediv total per_page hper]
  · simp [PaginatedResponse.new]
  · simp [PaginatedResponse.new]

/-- C1 witness: at total 25, per_page 10 and page 2 the meta has total_pages 3,
has_next_page true and has_previous_page true. -/
theorem C1_pagination_meta_witness :
    (PaginatedResponse.new ([] : List Unit) 25 ⟨2, 10⟩).meta.total_pages = 3 ∧
    (PaginatedResponse.new ([] : List Unit) 25 ⟨2, 10⟩).meta.has_next_page = true ∧
    (PaginatedResponse.new ([] : List Unit) 25 ⟨2, 10⟩).meta.has_previous_page = true := by
  obtain ⟨hceil, hint, hnext, hprev⟩ :=
    C1_pagination_meta ([] : List Unit) 25 2 10 (by decide) (by decide) (by decide)
      (by decide) (by decide)
  have h3 : (PaginatedResponse.new ([] : List Unit) 25 ⟨2, 10⟩).meta.total_pages = 3 := by
    rw [hint]; decide
  exact ⟨h3, hnext.mpr (by rw [h3]; decide), hprev.mpr (by decide)⟩

/-- C3 counterexample: with total 0, per_page 10 and page 2 the code sets
has_previous_page from page alone, so it is true, refuting the claim that
total = 0 makes has_previous_page false for every page ≥ 1. -/
theorem C3_counterexample :
    (PaginatedResponse.new ([] : List Unit) 0 ⟨2, 10⟩).meta.has_previous_page = true := by
  rfl

/-- C3 amended: for per_page > 0 and page ≥ 1, total = 0 gives total_pages 0
and has_next_page false, while has_previous_page stays page > 1 and is false
exactly when page = 1. -/
theorem C3_zero_total {T : Type} (data : List T) (page per_page : Int)
    (hper : 0 < per_page) (hpage : 1 ≤ page) :
    (PaginatedResponse.new data 0 ⟨page, per_page⟩).meta.total_pages = 0 ∧
    (PaginatedResponse.new data 0 ⟨page, per_page⟩).meta.has_next_page = false ∧
    ((PaginatedResponse.new data 0 ⟨page, per_page⟩).meta.has_previous_page = false
      ↔ page = 1) := by
  have hb0 : per_page ≠ 0 := ne_of_gt hper
  have hf : float_ceil_div 0 per_page = 0 := float_ceil_div_zero_left per_page hb0
  refine ⟨?_, ?_, ?_⟩
  · simp only [PaginatedResponse.new]
    exact hf
  · simp only [PaginatedResponse.new, hf, decide_eq_false_iff_not]
    omega
  · simp only [PaginatedResponse.new, decide_eq_false_iff_not]
    omega

/-- C3 witness for the amended statement: total 0, per_page 10, page 1 gives
total_pages 0 and both flags false. -/
theorem C3_zero_total_witness :
    (PaginatedResponse.new ([] : List Unit) 0 ⟨1, 10⟩).meta.total_pages = 0 ∧
    (PaginatedResponse.new ([] : List Unit) 0 ⟨1, 10⟩).meta.has_next_page = false ∧
    ((PaginatedResponse.new ([] : List Unit) 0 ⟨1, 10⟩).meta.has_previous_page = false
      ↔ (1 : Int) = 1) :=
  C3_zero_total ([] : List Unit) 1 10 (by decide) (by decide)

/-- C8: PaginatedResponse::new validates nothing and cannot fail: for every
data, total and pagination — non-positive page or per_page included — it
returns the envelope with the inputs passed through unchanged and
has_previous_page computed from page alone. -/
theorem C8_new_never_fails {T : Type} (data : List T) (total : Int)
    (p : PaginationParams) :
    (PaginatedResponse.new data total p).data = data ∧
    (PaginatedResponse.new data total p).meta.current_page = p.page ∧
    (PaginatedResponse.new data total p).meta.per_page = p.per_page ∧
    (PaginatedResponse.new data total p).meta.total_items = total ∧
    (PaginatedResponse.new data total p).meta.has_previous_page = decide (p.page > 1) :=
  ⟨rfl, rfl, rfl, rfl, rfl⟩

/-- C4: the translation from DatabaseError to ApiError is total over the six
variants and maps ConnectionFailed and PoolError to ConnectionPoolError,
QueryFailed and TransactionFailed to DatabaseError, RecordNotFound to
NotFound, and UniqueViolation to Conflict. -/
theorem C4_code_mapping (msg : String) :
    (ApiError.fromDatabaseError (.ConnectionFailed msg)).code = .ConnectionPoolError ∧
    (ApiError.fromDatabaseError (.PoolError msg)).code = .ConnectionPoolError ∧
    (ApiError.fromDatabaseError (.QueryFailed msg)).code = .DatabaseError ∧
    (ApiError.fromDatabaseError (.TransactionFailed msg)).code = .DatabaseError ∧
    (ApiError.fromDatabaseError (.RecordNotFound msg)).code = .NotFound ∧
    (ApiError.fromDatabaseError (.UniqueViolation msg)).code = .Conflict :=
  ⟨rfl, rfl, rfl, rfl, rfl, rfl⟩

/-- C5 counterexample: two ConnectionFailed values wrapping different strings
produce different client-visible messages, refuting the claim that
same-variant errors always yield equal messages. -/
theorem C5_counterexample :
    (ApiError.fromDatabaseError (.ConnectionFailed "a")).message ≠
    (ApiError.fromDatabaseError (.ConnectionFailed "b")).message := by
  decide

/-- C5 amended: the client-visible message is the full Display rendering of
the DatabaseError — a category prefix followed by the wrapped low-level text —
so same-variant values give equal messages exactly when the wrapped strings
are equal; the cause value is additionally retained in the source field. -/
theorem C5_message_carries_cause (e : DatabaseError) (s t : String) :
    (ApiError.fromDatabaseError e).message = DatabaseError.toString e ∧
    (ApiError.fromDatabaseError e).source = some e ∧
    ((ApiError.fromDatabaseError (.ConnectionFailed s)).message =
      (ApiError.fromDatabaseError (.ConnectionFailed t)).message ↔ s = t) := by
  refine ⟨?_, ?_, ?_⟩
  · cases e <;> rfl
  · cases e <;> rfl
  · show ("Database connection failed: " ++ s = "Database connection failed: " ++ t)
      ↔ s = t
    constructor
    · intro h
      have hd := congrArg String.data h
      simp [String.data_append] at hd
      exact String.ext hd
    · intro h
      rw [h]

/-- C2: the code maps a uniqueness violation to ErrorCode.DatabaseError, not
Conflict. A diesel DatabaseError of any kind — UniqueViolation included —
becomes QueryFailed, because the From arm ignores the attached kind, and
QueryFailed then carries ErrorCode.DatabaseError; in particular creating an
organization whose name collides with a live one surfaces DatabaseError
rather than the Conflict the spec states. -/
theorem C2_unique_violation_not_conflict :
    (∀ (kind : DatabaseErrorKind) (message : String),
      (ApiError.fromDatabaseError (DatabaseError.fromDiesel
        (DieselError.DatabaseError kind message))).code = ErrorCode.DatabaseError) ∧
    errorCodeOf (OrganizationRepository.create [⟨1, "Acme", false⟩] ⟨2, "Acme", false⟩)
      = some ErrorCode.DatabaseError ∧
    errorCodeOf (OrganizationRepository.create [⟨1, "Acme", false⟩] ⟨2, "Acme", false⟩)
      ≠ some ErrorCode.Conflict := by
  exact ⟨fun kind message => rfl, by decide, by decide⟩

/-- C6: when no live row carries the requested id — the id is absent or its
row is soft-deleted — find_by_id, update and soft_delete each fail, and the
error translated through the two From impls carries ErrorCode.NotFound. -/
theorem C6_missing_live_row_not_found (store : List Organization) (id : Nat)
    (model : Organization)
    (h : ∀ r ∈ store, r.id = id → r.deleted = true) :
    errorCodeOf (OrganizationRepository.find_by_id store id)
      = some ErrorCode.NotFound ∧
    errorCodeOf (OrganizationRepository.update store id model)
      = some ErrorCode.NotFound ∧
    errorCodeOf (OrganizationRepository.soft_delete store id)
      = some ErrorCode.NotFound := by
  have hnone : store.find? (fun r => r.id == id && !r.deleted) = none := by
    rw [List.find?_eq_none]
    intro r hr hp
    simp only [Bool.and_eq_true, beq_iff_eq, Bool.not_eq_true'] at hp
    have := h r hr hp.1
    rw [this] at hp
    exact absurd hp.2 (by decide)
  refine ⟨?_, ?_, ?_⟩
  · simp [OrganizationRepository.find_by_id, hnone, errorCodeOf,
      DatabaseError.fromDiesel, ApiError.fromDatabaseError]
  · simp [OrganizationRepository.update, hnone, errorCodeOf,
      DatabaseError.fromDiesel, ApiError.fromDatabaseError]
  · simp [OrganizationRepository.soft_delete, hnone, errorCodeOf,
      DatabaseError.fromDiesel, ApiError.fromDatabaseError]

/-- C6 witness: a store holding only a soft-deleted organization with id 1
makes find_by_id, update and soft_delete on id 1 all surface NotFound. -/
theorem C6_missing_live_row_not_found_witness :
    (∀ r ∈ [({ id := 1, name := "Acme", deleted := true } : Organization)],
      r.id = 1 → r.deleted = true) ∧
    (errorCodeOf (OrganizationRepository.find_by_id
        [{ id := 1, name := "Acme", deleted := true }] 1)
      = some ErrorCode.NotFound ∧
    errorCodeOf (OrganizationRepository.update
        [{ id := 1, name := "Acme", deleted := true }] 1
        { id := 1, name := "Beta", deleted := false })
      = some ErrorCode.NotFound ∧
    errorCodeOf (OrganizationRepository.soft_delete
        [{ id := 1, name := "Acme", deleted := true }] 1)
      = some ErrorCode.NotFound) := by
  have h : ∀ r ∈ [({ id := 1, name := "Acme", deleted := true } : Organization)],
      r.id = 1 → r.deleted = true := by decide
  exact ⟨h, C6_missing_live_row_not_found
    [{ id := 1, name := "Acme", deleted := true }] 1
    { id := 1, name := "Beta", deleted := false } h⟩

/-- C7: the list handler defaults limit to 10 and offset to 0 and passes
PaginationParams with per_page equal to limit and page equal to
offset / limit + 1 under truncating i64 division, whenever the division is
defined and the page stays inside the i64 range. -/
theorem C7_list_pagination (query : ListOrganizationsQuery)
    (hl : query.limit.getD 10 ≠ 0)
    (hmin : ¬(query.offset.getD 0 = -(2 ^ 63) ∧ query.limit.getD 10 = -1))
    (hlow : -(2 ^ 63) ≤ (query.offset.getD 0).tdiv (query.limit.getD 10) + 1)
    (hhigh : (query.offset.getD 0).tdiv (query.limit.getD 10) + 1 < 2 ^ 63) :
    list_organizations_pagination query =
      some { page := (query.offset.getD 0).tdiv (query.limit.getD 10) + 1,
             per_page := query.limit.getD 10 } := by
  simp only [list_organizations_pagination]
  rw [if_neg (not_or.mpr ⟨hl, hmin⟩)]
  rw [wrap64_eq_self _ hlow hhigh]

/-- C7 witness: offset 15 with limit 10 is silently truncated to page 2. -/
theorem C7_list_pagination_witness :
    list_organizations_pagination ⟨some 10, some 15⟩ = some ⟨2, 10⟩ := by
  have h := C7_list_pagination ⟨some 10, some 15⟩
    (by decide) (by decide) (by decide) (by decide)
  exact h

/-- C9: a request that explicitly supplies limit = 0 reaches the division
offset / limit with a zero divisor, which panics before any database work:
the pagination step yields none, so the handler is total only when the limit
is nonzero. -/
theorem C9_zero_limit_panics (query : ListOrganizationsQuery)
    (h : query.limit = some 0) :
    list_organizations_pagination query = none := by
  simp [list_organizations_pagination, h]

/-- C9 witness: limit 0 with offset 5 panics. -/
theorem C9_zero_limit_panics_witness :
    list_organizations_pagination ⟨some 0, some 5⟩ = none :=
  C9_zero_limit_panics ⟨some 0, some 5⟩ rfl

/-- C10: the total the list handler passes to PaginatedResponse::new is the
length of the single returned page; with a valid query — nonnegative offset
below i64 maximum, positive limit — and at most per_page rows returned, every
successful response reports total_items equal to the page length,
total_pages at most 1 and has_next_page false. -/
theorem C10_list_single_page (query : ListOrganizationsQuery)
    (organizations : List Organization) (response : PaginatedResponse Organization)
    (hoff0 : 0 ≤ query.offset.getD 0)
    (hoffmax : query.offset.getD 0 < 2 ^ 63 - 1)
    (hlim : 0 < query.limit.getD 10)
    (hcount : (organizations.length : Int) ≤ query.limit.getD 10)
    (hresp : list_organizations query organizations = some response) :
    response.meta.total_items = (organizations.length : Int) ∧
    response.meta.total_pages ≤ 1 ∧
    response.meta.has_next_page = false := by
  have e63 : (2 : Int) ^ 63 = 9223372036854775808 := by norm_num
  have hl0 : query.limit.getD 10 ≠ 0 := ne_of_gt hlim
  have hmin : ¬(query.offset.getD 0 = -(2 ^ 63) ∧ query.limit.getD 10 = -1) := by
    rintro ⟨ho, -⟩
    rw [ho, e63] at hoff0
    omega
  have ht0 : 0 ≤ (query.offset.getD 0).tdiv (query.limit.getD 10) :=
    Int.tdiv_nonneg hoff0 (le_of_lt hlim)
  have hte : (query.offset.getD 0).tdiv (query.limit.getD 10) ≤ query.offset.getD 0 := by
    rw [Int.tdiv_eq_ediv hoff0 (le_of_lt hlim)]
    exact Int.ediv_le_self _ hoff0
  have hlow : -(2 ^ 63) ≤ (query.offset.getD 0).tdiv (query.limit.getD 10) + 1 := by
    rw [e63]
    omega
  have hhigh : (query.offset.getD 0).tdiv (query.limit.getD 10) + 1 < 2 ^ 63 := by
    rw [e63]
    rw [e63] at hoffmax
    omega
  have hp : list_organizations_pagination query =
      some ⟨(query.offset.getD 0).tdiv (query.limit.getD 10) + 1,
        query.limit.getD 10⟩ := by
    simp only [list_organizations_pagination]
    rw [if_neg (not_or.mpr ⟨hl0, hmin⟩)]
    rw [wrap64_eq_self _ hlow hhigh]
  simp only [list_organizations, hp, Option.some.injEq] at hresp
  subst hresp
  have hlen0 : (0 : Int) ≤ (organizations.length : Int) := Int.ofNat_nonneg _
  have hbound := float_ceil_div_le_one ((organizations.length : Int))
    (query.limit.getD 10) hlen0 hlim hcount
  refine ⟨rfl, ?_, ?_⟩
  · simp only [PaginatedResponse.new]
    exact hbound.1
  · simp only [PaginatedResponse.new, decide_eq_false_iff_not, not_lt]
    linarith [hbound.1]

/-- A one-row store used by the C10 witness. -/
def acmeRow : Organization := { id := 1, name := "Acme", deleted := false }

/-- The response the list handler produces for a query with limit 10 and
offset 0 over a single stored row. -/
def acmeListResponse : PaginatedResponse Organization :=
  PaginatedResponse.new [acmeRow] (([acmeRow] : List Organization).length : Int)
    ⟨(0 : Int).tdiv 10 + 1, 10⟩

/-- C10 witness: one row listed with limit 10 and offset 0 gives total_items 1,
total_pages at most 1 and no next page. -/
theorem C10_list_single_page_witness :
    acmeListResponse.meta.total_items = (([acmeRow] : List Organization).length : Int) ∧
    acmeListResponse.meta.total_pages ≤ 1 ∧
    acmeListResponse.meta.has_next_page = false := by
  refine C10_list_single_page ⟨some 10, some 0⟩ [acmeRow] acmeListResponse
    ?_ ?_ ?_ ?_ ?_
  · decide
  · decide
  · decide
  · decide
  · rfl
